import Mathlib

/-
Verification of the Rule Matching and Relocation Engine of the
obsidian-file-organizer plugin (src/main.ts).

The engine is embedded shallowly: the vault is a list of file records plus a
list of folder paths, and the `organizeFiles` loop (main.ts lines 90-161) is
translated into a pure state-passing function.  Fallible renames are modelled
by an oracle `F : String -> String -> Bool` telling, per (source, destination)
pair, whether the underlying `vault.rename` call throws; the code catches such
errors per file (lines 138-141).
-/

/-- Rule record, main.ts lines 3-8.  Empty string plays the role of an unset
(falsy) criterion, exactly as in the source. -/
structure OrganizeRule where
  tag : String
  folder : String
  fileType : String
  filenamePattern : String
deriving DecidableEq

/-- Read-only projection of an Obsidian TFile as used by the engine: the
parent folder path, base name, extension, the two tag sources of the metadata
cache (frontmatter and inline, main.ts lines 207-227), and a flag telling
whether reading the file for tag inspection throws (main.ts lines 230-233). -/
structure VFile where
  parent : String
  basename : String
  extension : String
  fmTags : List String
  inlineTags : List String
  tagReadFails : Bool
deriving DecidableEq

/-- TFile.name: base name plus dot plus extension. -/
def VFile.name (f : VFile) : String :=
  f.basename ++ (".") ++ f.extension

/-- TFile.path: parent folder path, slash, file name. -/
def VFile.path (f : VFile) : String :=
  f.parent ++ ("/") ++ f.name

/-- Prefix test on character lists (helper for the string operations). -/
def leadsWith : List Char → List Char → Bool
  | _, [] => true
  | [], _ :: _ => false
  | a :: as, b :: bs => a == b && leadsWith as bs

/-- Contiguous-occurrence test on character lists (helper). -/
def containsChars (pat : List Char) : List Char → Bool
  | [] => leadsWith [] pat
  | a :: as => leadsWith (a :: as) pat || containsChars pat as

/-- JavaScript String.prototype.includes, used at main.ts line 185. -/
def strIncludes (hay pat : String) : Bool :=
  containsChars pat.data hay.data

/-- JavaScript String.prototype.toLowerCase, character by character, written
over the character list. -/
def strLower (s : String) : String :=
  String.mk (s.data.map Char.toLower)

/-- JavaScript String.prototype.startsWith, written over the character
lists. -/
def strStartsWith (s pre : String) : Bool :=
  leadsWith s.data pre.data

/-- Tag normalization, main.ts lines 204, 212, 222: lower-case, then strip at
most one leading hash. -/
def normalizeTag (s : String) : String :=
  let l := strLower s
  if strStartsWith l ("#") then String.mk (l.data.drop 1) else l

/-- fileHasTag, main.ts lines 198-234: true iff some frontmatter or inline tag
normalizes to the normalized search tag; any read error yields false. -/
def fileHasTag (f : VFile) (tag : String) : Bool :=
  if f.tagReadFails then false
  else
    f.fmTags.any (fun t => normalizeTag t == normalizeTag tag) ||
      f.inlineTags.any (fun t => normalizeTag t == normalizeTag tag)

/-- fileMatchesRule, main.ts lines 163-196, with the exact control flow of the
source: a tag match on a markdown file short-circuits to true; otherwise the
fileType and filenamePattern criteria combine with AND semantics, and a rule
with no active criterion returns false. -/
def fileMatchesRule (f : VFile) (rule : OrganizeRule) : Bool :=
  if rule.tag != ("") && f.extension == ("md") && fileHasTag f rule.tag then
    true
  else if rule.fileType != ("") && strLower f.extension != strLower rule.fileType then
    false
  else if rule.filenamePattern != ("") &&
      !(strIncludes (strLower f.basename) (strLower rule.filenamePattern)) then
    false
  else
    rule.fileType != ("") || rule.filenamePattern != ("")

/-- isInExcludedFolder, main.ts lines 236-243: true iff the path starts with
some excluded folder followed by a forward or backward slash. -/
def isInExcludedFolder (excludedFolders : List String) (filePath : String) : Bool :=
  excludedFolders.any (fun ex =>
    strStartsWith filePath (ex ++ ("/")) || strStartsWith filePath (ex ++ ("\\")))

/-- Entry of the movedFiles log, main.ts lines 93 and 131-135. -/
structure MoveRecord where
  oldPath : String
  newPath : String
  folder : String
deriving DecidableEq

/-- The vault: live file records plus folder paths. -/
structure Vault where
  files : List VFile
  folders : List String
deriving DecidableEq

/-- getAbstractFileByPath is non-null: some live file or folder has this
path. -/
def Vault.pathExists (v : Vault) (p : String) : Bool :=
  v.files.any (fun g => g.path == p) || v.folders.contains p

/-- ensureFolder, main.ts lines 245-256: create the folder iff nothing exists
at its path (creation errors are swallowed by the source; the model lets
creation succeed). -/
def Vault.ensureFolder (v : Vault) (folderPath : String) : Vault :=
  if v.pathExists folderPath then v else { v with folders := folderPath :: v.folders }

/-- vault.rename at main.ts line 129: the file at the old path gets the new
parent folder; everything else is untouched. -/
def Vault.renameFile (v : Vault) (oldPath newFolder : String) : Vault :=
  { v with
      files := v.files.map (fun g =>
        if g.path == oldPath then { g with parent := newFolder } else g) }

/-- Running state of one organizeFiles pass: live vault, the totalMoved tally
(line 92), the movedFiles log (line 93), and the collision-skip warnings
written by console.warn at line 125. -/
structure RunState where
  vault : Vault
  totalMoved : Nat
  movedFiles : List MoveRecord
  skippedCollisions : List MoveRecord
deriving DecidableEq

/-- Why the per-file rule loop stopped (the break statements at main.ts lines
109, 126, 137, 140, or falling off the rule list). -/
inductive Outcome where
  | alreadyInPlace (rule : OrganizeRule)
  | moved (rule : OrganizeRule) (dest : String)
  | collisionSkip (rule : OrganizeRule) (dest : String)
  | moveFailed (rule : OrganizeRule) (dest : String)
  | noMatch
deriving DecidableEq

/-- The rule and destination a stopped rule loop was attempting, if any. -/
def Outcome.attempted : Outcome → Option (OrganizeRule × String)
  | Outcome.moved ru d => some (ru, d)
  | Outcome.collisionSkip ru d => some (ru, d)
  | Outcome.moveFailed ru d => some (ru, d)
  | Outcome.alreadyInPlace _ => none
  | Outcome.noMatch => none

/-- Destination computed at main.ts line 117: rule.folder, slash, file name. -/
def destPath (rule : OrganizeRule) (f : VFile) : String :=
  rule.folder ++ ("/") ++ f.name

/-- Inner rule loop of organizeFiles, main.ts lines 106-143, for one file:
break if the file is already in the target folder (line 108); on a match,
ensure the folder, skip on an existing destination (lines 123-127), count and
log a successful rename (lines 129-137), and swallow a rename error (lines
138-141).  `F old new = true` means the rename throws. -/
def processRules (F : String → String → Bool) (f : VFile) (st : RunState) :
    List OrganizeRule → RunState × Outcome
  | [] => (st, Outcome.noMatch)
  | rule :: rest =>
    if f.parent == rule.folder then
      (st, Outcome.alreadyInPlace rule)
    else if fileMatchesRule f rule then
      let v1 := st.vault.ensureFolder rule.folder
      let np := destPath rule f
      if v1.pathExists np then
        (⟨v1, st.totalMoved, st.movedFiles,
            st.skippedCollisions ++ [⟨f.path, np, rule.folder⟩]⟩,
          Outcome.collisionSkip rule np)
      else if F f.path np then
        ({ st with vault := v1 }, Outcome.moveFailed rule np)
      else
        (⟨v1.renameFile f.path rule.folder, st.totalMoved + 1,
            st.movedFiles ++ [⟨f.path, np, rule.folder⟩], st.skippedCollisions⟩,
          Outcome.moved rule np)
    else
      processRules F f st rest

/-- Outer file loop of organizeFiles, main.ts lines 99-144: skip excluded
files, otherwise run the rule loop and continue with the next snapshot file. -/
def organizeLoop (F : String → String → Bool) (excluded : List String)
    (rules : List OrganizeRule) : List VFile → RunState → RunState
  | [], st => st
  | f :: fs, st =>
    if isInExcludedFolder excluded f.path then
      organizeLoop F excluded rules fs st
    else
      organizeLoop F excluded rules fs (processRules F f st rules).1

/-- One full organizeFiles run, main.ts lines 90-161: snapshot the files once
and process each against the rule list. -/
def organizeFiles (F : String → String → Bool) (excluded : List String)
    (rules : List OrganizeRule) (v : Vault) : RunState :=
  organizeLoop F excluded rules v.files ⟨v, 0, [], []⟩

/-- The first rule of the list the file would try to move under: walk the
rules in order, stop with none at an already-in-target-folder rule, stop with
that rule at the first match.  This is the state-independent skeleton of the
rule loop. -/
def wouldAttempt (f : VFile) : List OrganizeRule → Option OrganizeRule
  | [] => none
  | rule :: rest =>
    if f.parent == rule.folder then none
    else if fileMatchesRule f rule then some rule
    else wouldAttempt f rest

/-- Planned attempt of one file, independent of any run state: none for an
excluded file, otherwise the matched rule and its destination path. -/
def plannedAttempt (excluded : List String) (rules : List OrganizeRule)
    (f : VFile) : Option (OrganizeRule × String) :=
  if isInExcludedFolder excluded f.path then none
  else (wouldAttempt f rules).map (fun ru => (ru, destPath ru f))

/-- Renaming does not change which rules a file matches: fileMatchesRule never
reads the parent folder. -/
theorem fileMatchesRule_parent (f : VFile) (x : String) (r : OrganizeRule) :
    fileMatchesRule { f with parent := x } r = fileMatchesRule f r := rfl

/-- Creating a folder never touches the file records. -/
theorem ensureFolder_files (v : Vault) (p : String) :
    (v.ensureFolder p).files = v.files := by
  unfold Vault.ensureFolder
  split <;> rfl

/-- When no rule would be attempted, the rule loop leaves the state alone. -/
theorem processRules_state_of_none (F : String → String → Bool) (f : VFile)
    (st : RunState) (rs : List OrganizeRule) (h : wouldAttempt f rs = none) :
    (processRules F f st rs).1 = st := by
  induction rs with
  | nil => rfl
  | cons rule rest ih =>
    by_cases hp : f.parent == rule.folder
    · simp [processRules, hp]
    · by_cases hm : fileMatchesRule f rule
      · simp [wouldAttempt, hp, hm] at h
      · simp only [wouldAttempt, hp, hm] at h
        simp only [processRules, hp, hm, if_false, if_true, Bool.false_eq_true,
          if_neg, ite_false]
        simpa [processRules, hp, hm] using ih h

/-- When the first applicable rule is `ru` and something already exists at the
destination, the rule loop records a collision skip and nothing else. -/
theorem processRules_of_collision (F : String → String → Bool) (f : VFile)
    (st : RunState) (rs : List OrganizeRule) (ru : OrganizeRule)
    (h : wouldAttempt f rs = some ru)
    (hex : (st.vault.ensureFolder ru.folder).pathExists (destPath ru f) = true) :
    processRules F f st rs =
      (⟨st.vault.ensureFolder ru.folder, st.totalMoved, st.movedFiles,
          st.skippedCollisions ++ [⟨f.path, destPath ru f, ru.folder⟩]⟩,
        Outcome.collisionSkip ru (destPath ru f)) := by
  induction rs with
  | nil => simp [wouldAttempt] at h
  | cons rule rest ih =>
    by_cases hp : f.parent == rule.folder
    · simp [wouldAttempt, hp] at h
    · by_cases hm : fileMatchesRule f rule
      · simp only [wouldAttempt, hp, hm] at h
        simp only [Bool.false_eq_true, if_false, if_true, Option.some.injEq] at h
        subst h
        simp [processRules, hp, hm, hex]
      · simp only [wouldAttempt, hp, hm] at h
        simp only [Bool.false_eq_true, if_false] at h
        simpa [processRules, hp, hm] using ih h

/-- When the first applicable rule is `ru`, the destination is free and the
rename throws, the rule loop only performs the folder creation: the file is
skipped, nothing is counted, and later rules are not consulted. -/
theorem processRules_of_moveFailed (F : String → String → Bool) (f : VFile)
    (st : RunState) (rs : List OrganizeRule) (ru : OrganizeRule)
    (h : wouldAttempt f rs = some ru)
    (hex : (st.vault.ensureFolder ru.folder).pathExists (destPath ru f) = false)
    (hF : F f.path (destPath ru f) = true) :
    processRules F f st rs =
      (⟨st.vault.ensureFolder ru.folder, st.totalMoved, st.movedFiles,
          st.skippedCollisions⟩,
        Outcome.moveFailed ru (destPath ru f)) := by
  induction rs with
  | nil => simp [wouldAttempt] at h
  | cons rule rest ih =>
    by_cases hp : f.parent == rule.folder
    · simp [wouldAttempt, hp] at h
    · by_cases hm : fileMatchesRule f rule
      · simp only [wouldAttempt, hp, hm] at h
        simp only [Bool.false_eq_true, if_false, if_true, Option.some.injEq] at h
        subst h
        simp [processRules, hp, hm, hex, hF]
      · simp only [wouldAttempt, hp, hm] at h
        simp only [Bool.false_eq_true, if_false] at h
        simpa [processRules, hp, hm] using ih h

/-- When the first applicable rule is `ru`, the destination is free and the
rename succeeds, the rule loop moves the file, counts it and logs it. -/
theorem processRules_of_moved (F : String → String → Bool) (f : VFile)
    (st : RunState) (rs : List OrganizeRule) (ru : OrganizeRule)
    (h : wouldAttempt f rs = some ru)
    (hex : (st.vault.ensureFolder ru.folder).pathExists (destPath ru f) = false)
    (hF : F f.path (destPath ru f) = false) :
    processRules F f st rs =
      (⟨(st.vault.ensureFolder ru.folder).renameFile f.path ru.folder,
          st.totalMoved + 1,
          st.movedFiles ++ [⟨f.path, destPath ru f, ru.folder⟩],
          st.skippedCollisions⟩,
        Outcome.moved ru (destPath ru f)) := by
  induction rs with
  | nil => simp [wouldAttempt] at h
  | cons rule rest ih =>
    by_cases hp : f.parent == rule.folder
    · simp [wouldAttempt, hp] at h
    · by_cases hm : fileMatchesRule f rule
      · simp only [wouldAttempt, hp, hm] at h
        simp only [Bool.false_eq_true, if_false, if_true, Option.some.injEq] at h
        subst h
        simp [processRules, hp, hm, hex, hF]
      · simp only [wouldAttempt, hp, hm] at h
        simp only [Bool.false_eq_true, if_false] at h
        simpa [processRules, hp, hm] using ih h

/-- The rule and destination the rule loop attempts do not depend on the run
state at all: they are the state-independent first applicable rule. -/
theorem processRules_attempted (F : String → String → Bool) (f : VFile)
    (st : RunState) (rs : List OrganizeRule) :
    (processRules F f st rs).2.attempted =
      (wouldAttempt f rs).map (fun ru => (ru, destPath ru f)) := by
  induction rs with
  | nil => rfl
  | cons rule rest ih =>
    by_cases hp : f.parent == rule.folder
    · simp [processRules, wouldAttempt, hp, Outcome.attempted]
    · by_cases hm : fileMatchesRule f rule
      · simp only [processRules, wouldAttempt, hp, hm, Bool.false_eq_true,
          if_false, if_true]
        split
        · simp [Outcome.attempted]
        · split <;> simp [Outcome.attempted]
      · simpa [processRules, wouldAttempt, hp, hm] using ih

/-- Stability of a completed move: once a file sits in the folder of the first
rule it would attempt, a fresh walk over the same rules stops at the
already-in-target-folder check, before any rule is applied to it again. -/
theorem wouldAttempt_after_move (f : VFile) (rules : List OrganizeRule)
    (ru : OrganizeRule) (h : wouldAttempt f rules = some ru) :
    wouldAttempt { f with parent := ru.folder } rules = none := by
  induction rules with
  | nil => simp [wouldAttempt] at h
  | cons rule rest ih =>
    by_cases hp : f.parent == rule.folder
    · simp [wouldAttempt, hp] at h
    · by_cases hm : fileMatchesRule f rule
      · simp only [wouldAttempt, hp, hm, Bool.false_eq_true, if_false, if_true,
          Option.some.injEq] at h
        subst h
        simp [wouldAttempt]
      · simp only [wouldAttempt, hp, hm, Bool.false_eq_true, if_false] at h
        by_cases hp2 : ru.folder == rule.folder
        · have : ({ f with parent := ru.folder } : VFile).parent == rule.folder := hp2
          simp [wouldAttempt, this]
        · simp [wouldAttempt, hp2, fileMatchesRule_parent, hm, ih h]

/-- Updating the parent folder of a file record relocates its path. -/
theorem path_parent_update (f : VFile) (x : String) :
    VFile.path { f with parent := x } = x ++ ("/") ++ f.name := rfl

/-- The destination of a rule for a file is the path of the relocated file. -/
theorem destPath_eq_path_update (ru : OrganizeRule) (f : VFile) :
    VFile.path { f with parent := ru.folder } = destPath ru f := rfl

/-- A path at which getAbstractFileByPath finds nothing is the path of no live
file. -/
theorem pathExists_false_files {v : Vault} {p : String}
    (h : v.pathExists p = false) : ∀ g ∈ v.files, VFile.path g ≠ p := by
  intro g hg he
  unfold Vault.pathExists at h
  rw [Bool.or_eq_false_iff] at h
  have := List.any_eq_false.mp h.1 g hg
  simp [he] at this

/-- Replacing one file value by another whose path is fresh keeps the live
paths pairwise distinct. -/
theorem nodup_map_update (f fRen : VFile) :
    ∀ l : List VFile, (l.map VFile.path).Nodup →
      (∀ g ∈ l, VFile.path g ≠ VFile.path fRen) →
      ((l.map (fun g => if g = f then fRen else g)).map VFile.path).Nodup := by
  intro l
  induction l with
  | nil => intro _ _; simp
  | cons a t ih =>
    intro hnd hfree
    have hndl : (a :: t).Nodup := hnd.of_map VFile.path
    rw [List.map_cons, List.nodup_cons] at hnd
    obtain ⟨ha, hndt⟩ := hnd
    rw [List.map_cons, List.map_cons, List.nodup_cons]
    refine ⟨?_, ih hndt (fun g hg => hfree g (List.mem_cons_of_mem _ hg))⟩
    rw [List.map_map, List.mem_map]
    rintro ⟨g, hg, hge⟩
    by_cases haf : a = f
    · have hfnt : f ∉ t := haf ▸ (List.nodup_cons.mp hndl).1
      have hgf : g ≠ f := fun he => hfnt (he ▸ hg)
      simp only [Function.comp, hgf, if_neg, haf, if_pos] at hge
      exact hfree g (List.mem_cons_of_mem _ hg) hge
    · by_cases hgf : g = f
      · simp only [Function.comp, hgf, if_pos, haf, if_neg] at hge
        exact hfree a (List.mem_cons_self a t) hge.symm
      · simp only [Function.comp, hgf, haf, if_neg] at hge
        exact ha (hge ▸ List.mem_map_of_mem VFile.path hg)

/-- Invariant carried through a run: live paths stay pairwise distinct, the
files not yet processed are still live and untouched, their paths are pairwise
distinct, every movedFiles entry is witnessed by a live file sitting at the
recorded destination that no fresh rule walk would move again, and the
recorded destinations are pairwise distinct. -/
structure GoodState (rules : List OrganizeRule) (st : RunState)
    (pending : List VFile) : Prop where
  livePathsNodup : (st.vault.files.map VFile.path).Nodup
  pendingLive : ∀ g ∈ pending, g ∈ st.vault.files
  pendingPathsNodup : (pending.map VFile.path).Nodup
  movedWitness : ∀ r ∈ st.movedFiles, ∃ g ∈ st.vault.files,
    VFile.path g = r.newPath ∧ wouldAttempt g rules = none
  movedDestNodup : (st.movedFiles.map MoveRecord.newPath).Nodup

/-- Processing one pending file preserves the run invariant. -/
theorem processRules_preserves_good (F : String → String → Bool)
    (rules : List OrganizeRule) (f : VFile) (fs : List VFile) (st : RunState)
    (hg : GoodState rules st (f :: fs)) :
    GoodState rules (processRules F f st rules).1 fs := by
  have hpendtail : (fs.map VFile.path).Nodup := by
    have hpn := hg.pendingPathsNodup
    rw [List.map_cons, List.nodup_cons] at hpn
    exact hpn.2
  have hfnotin : VFile.path f ∉ fs.map VFile.path := by
    have hpn := hg.pendingPathsNodup
    rw [List.map_cons, List.nodup_cons] at hpn
    exact hpn.1
  cases h : wouldAttempt f rules with
  | none =>
    rw [processRules_state_of_none F f st rules h]
    exact ⟨hg.livePathsNodup,
      fun g hgm => hg.pendingLive g (List.mem_cons_of_mem _ hgm),
      hpendtail, hg.movedWitness, hg.movedDestNodup⟩
  | some ru =>
    cases hex : (st.vault.ensureFolder ru.folder).pathExists (destPath ru f) with
    | true =>
      rw [processRules_of_collision F f st rules ru h hex]
      refine ⟨?_, ?_, hpendtail, ?_, hg.movedDestNodup⟩
      · show (((st.vault.ensureFolder ru.folder).files.map VFile.path)).Nodup
        rw [ensureFolder_files]
        exact hg.livePathsNodup
      · intro g hgm
        show g ∈ (st.vault.ensureFolder ru.folder).files
        rw [ensureFolder_files]
        exact hg.pendingLive g (List.mem_cons_of_mem _ hgm)
      · intro r hr
        obtain ⟨g0, hg0m, hg0p, hg0w⟩ := hg.movedWitness r hr
        refine ⟨g0, ?_, hg0p, hg0w⟩
        show g0 ∈ (st.vault.ensureFolder ru.folder).files
        rw [ensureFolder_files]
        exact hg0m
    | false =>
      cases hF : F f.path (destPath ru f) with
      | true =>
        rw [processRules_of_moveFailed F f st rules ru h hex hF]
        refine ⟨?_, ?_, hpendtail, ?_, hg.movedDestNodup⟩
        · show (((st.vault.ensureFolder ru.folder).files.map VFile.path)).Nodup
          rw [ensureFolder_files]
          exact hg.livePathsNodup
        · intro g hgm
          show g ∈ (st.vault.ensureFolder ru.folder).files
          rw [ensureFolder_files]
          exact hg.pendingLive g (List.mem_cons_of_mem _ hgm)
        · intro r hr
          obtain ⟨g0, hg0m, hg0p, hg0w⟩ := hg.movedWitness r hr
          refine ⟨g0, ?_, hg0p, hg0w⟩
          show g0 ∈ (st.vault.ensureFolder ru.folder).files
          rw [ensureFolder_files]
          exact hg0m
      | false =>
        rw [processRules_of_moved F f st rules ru h hex hF]
        have hfree : ∀ g ∈ st.vault.files, VFile.path g ≠ destPath ru f := by
          intro g hgm
          exact pathExists_false_files hex g (by rw [ensureFolder_files]; exact hgm)
        have hmemf : f ∈ st.vault.files := hg.pendingLive f (List.mem_cons_self f fs)
        have hinj : ∀ g ∈ st.vault.files, VFile.path g = VFile.path f → g = f :=
          fun g hgm he => List.inj_on_of_nodup_map hg.livePathsNodup hgm hmemf he
        have hfiles : ((st.vault.ensureFolder ru.folder).renameFile f.path ru.folder).files
            = st.vault.files.map
              (fun g => if g = f then { f with parent := ru.folder } else g) := by
          show (st.vault.ensureFolder ru.folder).files.map
              (fun g => if g.path == f.path then { g with parent := ru.folder } else g)
            = st.vault.files.map
              (fun g => if g = f then { f with parent := ru.folder } else g)
          rw [ensureFolder_files]
          apply List.map_congr_left
          intro g hgm
          by_cases hb : g.path == f.path
          · have hgf : g = f := hinj g hgm (by simpa using hb)
            subst hgf
            simp
          · have hgf : g ≠ f := fun hh => (by simpa using hb : VFile.path g ≠ VFile.path f) (hh ▸ rfl)
            simp [hb, hgf]
        have hfree2 : ∀ g ∈ st.vault.files,
            VFile.path g ≠ VFile.path { f with parent := ru.folder } := by
          intro g hgm
          rw [destPath_eq_path_update]
          exact hfree g hgm
        refine ⟨?_, ?_, hpendtail, ?_, ?_⟩
        · show ((((st.vault.ensureFolder ru.folder).renameFile f.path ru.folder).files.map
            VFile.path)).Nodup
          rw [hfiles]
          exact nodup_map_update f { f with parent := ru.folder } st.vault.files
            hg.livePathsNodup hfree2
        · intro g hgm
          show g ∈ ((st.vault.ensureFolder ru.folder).renameFile f.path ru.folder).files
          rw [hfiles]
          have hgm0 : g ∈ st.vault.files := hg.pendingLive g (List.mem_cons_of_mem _ hgm)
          have hgf : g ≠ f := by
            intro hh
            exact hfnotin (hh ▸ List.mem_map_of_mem VFile.path hgm)
          have hfix : (fun g => if g = f then { f with parent := ru.folder } else g) g = g := by
            simp [hgf]
          exact hfix ▸ List.mem_map_of_mem _ hgm0
        · intro r hr
          have hr2 : r ∈ st.movedFiles ++ [(⟨f.path, destPath ru f, ru.folder⟩ : MoveRecord)] := hr
          rcases List.mem_append.mp hr2 with hro | hrn
          · obtain ⟨g0, hg0m, hg0p, hg0w⟩ := hg.movedWitness r hro
            have hg0f : g0 ≠ f := by
              intro hh
              rw [hh, h] at hg0w
              cases hg0w
            refine ⟨g0, ?_, hg0p, hg0w⟩
            show g0 ∈ ((st.vault.ensureFolder ru.folder).renameFile f.path ru.folder).files
            rw [hfiles]
            have hfix : (fun g => if g = f then { f with parent := ru.folder } else g) g0 = g0 := by
              simp [hg0f]
            exact hfix ▸ List.mem_map_of_mem _ hg0m
          · have hre : r = ⟨f.path, destPath ru f, ru.folder⟩ := by simpa using hrn
            subst hre
            refine ⟨{ f with parent := ru.folder }, ?_, destPath_eq_path_update ru f, ?_⟩
            · show { f with parent := ru.folder }
                ∈ ((st.vault.ensureFolder ru.folder).renameFile f.path ru.folder).files
              rw [hfiles]
              exact List.mem_map.mpr ⟨f, hmemf, by simp⟩
            · exact wouldAttempt_after_move f rules ru h
        · show ((st.movedFiles ++ [(⟨f.path, destPath ru f, ru.folder⟩ : MoveRecord)]).map
            MoveRecord.newPath).Nodup
          rw [List.map_append]
          refine List.Nodup.append hg.movedDestNodup (by simp) ?_
          intro p hp1 hp2
          have hpe : p = destPath ru f := by simpa using hp2
          obtain ⟨r0, hr0, hr0e⟩ := List.mem_map.mp hp1
          obtain ⟨g0, hg0m, hg0p, _⟩ := hg.movedWitness r0 hr0
          exact hfree g0 hg0m (by rw [hg0p, hr0e, hpe])

/-- Weakening: the run invariant for a pending list also holds for its tail. -/
theorem GoodState.tail {rules : List OrganizeRule} {st : RunState} {f : VFile}
    {fs : List VFile} (hg : GoodState rules st (f :: fs)) : GoodState rules st fs := by
  refine ⟨hg.livePathsNodup, fun g hgm => hg.pendingLive g (List.mem_cons_of_mem _ hgm),
    ?_, hg.movedWitness, hg.movedDestNodup⟩
  have hpn := hg.pendingPathsNodup
  rw [List.map_cons, List.nodup_cons] at hpn
  exact hpn.2

/-- The run invariant survives the whole file loop. -/
theorem organizeLoop_good (F : String → String → Bool) (excluded : List String)
    (rules : List OrganizeRule) :
    ∀ (fs : List VFile) (st : RunState), GoodState rules st fs →
      GoodState rules (organizeLoop F excluded rules fs st) [] := by
  intro fs
  induction fs with
  | nil =>
    intro st hg
    exact ⟨hg.livePathsNodup, by simp, by simp, hg.movedWitness, hg.movedDestNodup⟩
  | cons f t ih =>
    intro st hg
    by_cases he : isInExcludedFolder excluded (VFile.path f)
    · simp only [organizeLoop, he, if_true]
      exact ih st hg.tail
    · simp only [organizeLoop, he, Bool.false_eq_true, if_false]
      exact ih _ (processRules_preserves_good F rules f t st hg)

/-- Every entry of the movedFiles log comes from a non-excluded snapshot file,
records its path as source, its first applicable rule as destination, and a
rename the oracle let succeed. -/
theorem organizeLoop_moved_provenance (F : String → String → Bool)
    (excluded : List String) (rules : List OrganizeRule) :
    ∀ (fs : List VFile) (st : RunState) (r : MoveRecord),
      r ∈ (organizeLoop F excluded rules fs st).movedFiles →
      r ∈ st.movedFiles ∨ ∃ g ∈ fs,
        isInExcludedFolder excluded (VFile.path g) = false ∧
        r.oldPath = VFile.path g ∧ F (VFile.path g) r.newPath = false ∧
        ∃ ru, wouldAttempt g rules = some ru ∧ r.newPath = destPath ru g ∧
          r.folder = ru.folder := by
  intro fs
  induction fs with
  | nil =>
    intro st r hr
    exact Or.inl hr
  | cons f t ih =>
    intro st r hr
    by_cases he : isInExcludedFolder excluded (VFile.path f)
    · simp only [organizeLoop, he, if_true] at hr
      rcases ih st r hr with h1 | ⟨g, hgm, rest⟩
      · exact Or.inl h1
      · exact Or.inr ⟨g, List.mem_cons_of_mem _ hgm, rest⟩
    · simp only [organizeLoop, he, Bool.false_eq_true, if_false] at hr
      rcases ih _ r hr with h1 | ⟨g, hgm, rest⟩
      · cases h : wouldAttempt f rules with
        | none =>
          rw [processRules_state_of_none F f st rules h] at h1
          exact Or.inl h1
        | some ru =>
          cases hex : (st.vault.ensureFolder ru.folder).pathExists (destPath ru f) with
          | true =>
            rw [processRules_of_collision F f st rules ru h hex] at h1
            exact Or.inl h1
          | false =>
            cases hF : F (VFile.path f) (destPath ru f) with
            | true =>
              rw [processRules_of_moveFailed F f st rules ru h hex hF] at h1
              exact Or.inl h1
            | false =>
              rw [processRules_of_moved F f st rules ru h hex hF] at h1
              have h2 : r ∈ st.movedFiles
                  ++ [(⟨VFile.path f, destPath ru f, ru.folder⟩ : MoveRecord)] := h1
              rcases List.mem_append.mp h2 with h3 | h4
              · exact Or.inl h3
              · have hre : r = ⟨VFile.path f, destPath ru f, ru.folder⟩ := by simpa using h4
                subst hre
                refine Or.inr ⟨f, List.mem_cons_self f t, by simpa using he, rfl, hF, ru, h,
                  rfl, rfl⟩
      · exact Or.inr ⟨g, List.mem_cons_of_mem _ hgm, rest⟩

/-- The loop only appends to the movedFiles log and counts exactly its new
entries. -/
theorem organizeLoop_moved_append (F : String → String → Bool)
    (excluded : List String) (rules : List OrganizeRule) :
    ∀ (fs : List VFile) (st : RunState), ∃ l : List MoveRecord,
      (organizeLoop F excluded rules fs st).movedFiles = st.movedFiles ++ l ∧
      (organizeLoop F excluded rules fs st).totalMoved = st.totalMoved + l.length := by
  intro fs
  induction fs with
  | nil =>
    intro st
    exact ⟨[], by simp [organizeLoop], by simp [organizeLoop]⟩
  | cons f t ih =>
    intro st
    by_cases he : isInExcludedFolder excluded (VFile.path f)
    · obtain ⟨l, h1, h2⟩ := ih st
      exact ⟨l, by simpa [organizeLoop, he] using h1, by simpa [organizeLoop, he] using h2⟩
    · have hloop : organizeLoop F excluded rules (f :: t) st
          = organizeLoop F excluded rules t ((processRules F f st rules).1) := by
        simp [organizeLoop, he]
      obtain ⟨l, h1, h2⟩ := ih ((processRules F f st rules).1)
      cases h : wouldAttempt f rules with
      | none =>
        have hst1 : (processRules F f st rules).1 = st :=
          processRules_state_of_none F f st rules h
        rw [hst1] at h1 h2
        exact ⟨l, by rw [hloop, hst1, h1], by rw [hloop, hst1, h2]⟩
      | some ru =>
        cases hex : (st.vault.ensureFolder ru.folder).pathExists (destPath ru f) with
        | true =>
          have hst1 : (processRules F f st rules).1
              = ⟨st.vault.ensureFolder ru.folder, st.totalMoved, st.movedFiles,
                  st.skippedCollisions ++ [⟨f.path, destPath ru f, ru.folder⟩]⟩ := by
            rw [processRules_of_collision F f st rules ru h hex]
          rw [hst1] at h1 h2
          exact ⟨l, by rw [hloop, hst1, h1], by rw [hloop, hst1, h2]⟩
        | false =>
          cases hF : F (VFile.path f) (destPath ru f) with
          | true =>
            have hst1 : (processRules F f st rules).1
                = ⟨st.vault.ensureFolder ru.folder, st.totalMoved, st.movedFiles,
                    st.skippedCollisions⟩ := by
              rw [processRules_of_moveFailed F f st rules ru h hex hF]
            rw [hst1] at h1 h2
            exact ⟨l, by rw [hloop, hst1, h1], by rw [hloop, hst1, h2]⟩
          | false =>
            have hst1 : (processRules F f st rules).1
                = ⟨(st.vault.ensureFolder ru.folder).renameFile f.path ru.folder,
                    st.totalMoved + 1,
                    st.movedFiles ++ [⟨f.path, destPath ru f, ru.folder⟩],
                    st.skippedCollisions⟩ := by
              rw [processRules_of_moved F f st rules ru h hex hF]
            rw [hst1] at h1 h2
            refine ⟨⟨VFile.path f, destPath ru f, ru.folder⟩ :: l, ?_, ?_⟩
            · rw [hloop, hst1, h1]
              simp
            · rw [hloop, hst1, h2]
              simp only [List.length_cons]
              omega

/-- Rules the file neither matches nor already sits in are transparent for the
rule walk. -/
theorem wouldAttempt_append (f : VFile) (pre rest : List OrganizeRule)
    (hpre : ∀ r ∈ pre, f.parent ≠ r.folder ∧ fileMatchesRule f r = false) :
    wouldAttempt f (pre ++ rest) = wouldAttempt f rest := by
  induction pre with
  | nil => rfl
  | cons r0 t ih =>
    have h0 := hpre r0 (List.mem_cons_self r0 t)
    have hp : (f.parent == r0.folder) = false := beq_eq_false_iff_ne.mpr h0.1
    simp only [List.cons_append, wouldAttempt, hp, h0.2, Bool.false_eq_true, if_false]
    exact ih (fun r hr => hpre r (List.mem_cons_of_mem _ hr))

/-- The whole loop preserves the number of live files: files are relocated,
never created, merged or deleted. -/
theorem organizeLoop_files_length (F : String → String → Bool)
    (excluded : List String) (rules : List OrganizeRule) :
    ∀ (fs : List VFile) (st : RunState),
      (organizeLoop F excluded rules fs st).vault.files.length
        = st.vault.files.length := by
  intro fs
  induction fs with
  | nil => intro st; rfl
  | cons f t ih =>
    intro st
    by_cases he : isInExcludedFolder excluded (VFile.path f)
    · simp only [organizeLoop, he, if_true]
      exact ih st
    · have hloop : organizeLoop F excluded rules (f :: t) st
          = organizeLoop F excluded rules t ((processRules F f st rules).1) := by
        simp [organizeLoop, he]
      rw [hloop]
      cases h : wouldAttempt f rules with
      | none =>
        rw [processRules_state_of_none F f st rules h]
        exact ih st
      | some ru =>
        cases hex : (st.vault.ensureFolder ru.folder).pathExists (destPath ru f) with
        | true =>
          have hst1 : (processRules F f st rules).1
              = ⟨st.vault.ensureFolder ru.folder, st.totalMoved, st.movedFiles,
                  st.skippedCollisions ++ [⟨f.path, destPath ru f, ru.folder⟩]⟩ := by
            rw [processRules_of_collision F f st rules ru h hex]
          rw [hst1, ih]
          show (st.vault.ensureFolder ru.folder).files.length = st.vault.files.length
          rw [ensureFolder_files]
        | false =>
          cases hF : F (VFile.path f) (destPath ru f) with
          | true =>
            have hst1 : (processRules F f st rules).1
                = ⟨st.vault.ensureFolder ru.folder, st.totalMoved, st.movedFiles,
                    st.skippedCollisions⟩ := by
              rw [processRules_of_moveFailed F f st rules ru h hex hF]
            rw [hst1, ih]
            show (st.vault.ensureFolder ru.folder).files.length = st.vault.files.length
            rw [ensureFolder_files]
          | false =>
            have hst1 : (processRules F f st rules).1
                = ⟨(st.vault.ensureFolder ru.folder).renameFile f.path ru.folder,
                    st.totalMoved + 1,
                    st.movedFiles ++ [⟨f.path, destPath ru f, ru.folder⟩],
                    st.skippedCollisions⟩ := by
              rw [processRules_of_moved F f st rules ru h hex hF]
            rw [hst1, ih]
            show ((st.vault.ensureFolder ru.folder).renameFile f.path ru.folder).files.length
              = st.vault.files.length
            show ((st.vault.ensureFolder ru.folder).files.map _).length = _
            rw [List.length_map, ensureFolder_files]

/-- Claim C2: priority determinism.  If the file matches the rules at
positions i and j with i earlier than j, no earlier rule matches it or holds
it via the already-in-place check, and the rule at i does not hold it either,
then the rule walk selects the rule at i, and the engine, in any run state,
attempts exactly the move dictated by that rule: one destination per file per
run, independent of how the rules after position i are arranged. -/
theorem priority_determinism (F : String → String → Bool) (st : RunState)
    (f : VFile) (pre mid post : List OrganizeRule) (ri rj : OrganizeRule)
    (hpre : ∀ r ∈ pre, f.parent ≠ r.folder ∧ fileMatchesRule f r = false)
    (hip : f.parent ≠ ri.folder)
    (him : fileMatchesRule f ri = true)
    (_hjm : fileMatchesRule f rj = true) :
    wouldAttempt f (pre ++ ri :: (mid ++ rj :: post)) = some ri ∧
    (processRules F f st (pre ++ ri :: (mid ++ rj :: post))).2.attempted
      = some (ri, destPath ri f) := by
  have h1 : wouldAttempt f (pre ++ ri :: (mid ++ rj :: post)) = some ri := by
    rw [wouldAttempt_append f pre _ hpre]
    have hp : (f.parent == ri.folder) = false := beq_eq_false_iff_ne.mpr hip
    simp [wouldAttempt, hp, him]
  refine ⟨h1, ?_⟩
  rw [processRules_attempted, h1]
  rfl

/-- Witness for C2: the Scenario B of the specification, a png screenshot and
the two overlapping rules; the higher-priority filename rule wins. -/
theorem priority_determinism_witness :
    wouldAttempt ⟨"inbox", "screenshot1", "png", [], [], false⟩
        ([] ++ (⟨"", "Screens", "", "screenshot"⟩ : OrganizeRule)
          :: ([] ++ (⟨"", "Images", "png", ""⟩ : OrganizeRule) :: []))
      = some ⟨"", "Screens", "", "screenshot"⟩ ∧
    (processRules (fun _ _ => false) ⟨"inbox", "screenshot1", "png", [], [], false⟩
        ⟨⟨[], []⟩, 0, [], []⟩
        ([] ++ (⟨"", "Screens", "", "screenshot"⟩ : OrganizeRule)
          :: ([] ++ (⟨"", "Images", "png", ""⟩ : OrganizeRule) :: []))).2.attempted
      = some (⟨"", "Screens", "", "screenshot"⟩,
          destPath ⟨"", "Screens", "", "screenshot"⟩
            ⟨"inbox", "screenshot1", "png", [], [], false⟩) :=
  priority_determinism (fun _ _ => false) ⟨⟨[], []⟩, 0, [], []⟩
    ⟨"inbox", "screenshot1", "png", [], [], false⟩ [] [] []
    ⟨"", "Screens", "", "screenshot"⟩ ⟨"", "Images", "png", ""⟩
    (by intro r hr; cases hr) (by decide) (by decide) (by decide)

/-- Claim C4: tag short-circuit.  A rule with a non-empty tag criterion
matches any markdown file whose tag set contains the normalized tag, even when
the fileType or filenamePattern criteria would fail for that file. -/
theorem tag_short_circuit (f : VFile) (rule : OrganizeRule)
    (ht : rule.tag ≠ ("")) (hm : f.extension = ("md"))
    (hh : fileHasTag f rule.tag = true) :
    fileMatchesRule f rule = true := by
  have h1 : (rule.tag != ("")) = true := bne_iff_ne.mpr ht
  have h2 : (f.extension == ("md")) = true := beq_iff_eq.mpr hm
  simp [fileMatchesRule, h1, h2, hh]

/-- Witness for C4: a markdown note with inline tag hash-X matches a rule
whose tag is hash-x although its fileType asks for png and its pattern does
not occur in the base name. -/
theorem tag_short_circuit_witness :
    fileMatchesRule ⟨"inbox", "note", "md", [], ["#X"], false⟩
      ⟨"#x", "Tagged", "png", "zzz"⟩ = true :=
  tag_short_circuit ⟨"inbox", "note", "md", [], ["#X"], false⟩
    ⟨"#x", "Tagged", "png", "zzz"⟩ (by decide) rfl (by decide)

/-- Claim C9: a rule with empty tag, fileType and filenamePattern matches no
file at all, whatever its destination folder. -/
theorem no_criteria_rule_never_matches (f : VFile) (folder : String) :
    fileMatchesRule f ⟨"", folder, "", ""⟩ = false := by
  simp [fileMatchesRule]

/-- Claim C5: exclusion absoluteness.  A path is excluded exactly when it
starts with some listed folder plus a path separator; the test does not depend
on the order of the exclusion list; and no run, whatever the rules and rename
oracle, ever moves a file whose path is excluded. -/
theorem exclusion_absoluteness (excluded excluded2 : List String) (p : String)
    (F : String → String → Bool) (rules : List OrganizeRule) (v : Vault)
    (r : MoveRecord) (hperm : excluded.Perm excluded2)
    (hr : r ∈ (organizeFiles F excluded rules v).movedFiles) :
    (isInExcludedFolder excluded p = true ↔ ∃ e ∈ excluded,
      strStartsWith p (e ++ ("/")) = true ∨ strStartsWith p (e ++ ("\\")) = true) ∧
    isInExcludedFolder excluded p = isInExcludedFolder excluded2 p ∧
    isInExcludedFolder excluded r.oldPath = false := by
  refine ⟨?_, ?_, ?_⟩
  · simp [isInExcludedFolder, List.any_eq_true]
  · have hiff : ∀ exs exs2 : List String, exs.Perm exs2 →
        isInExcludedFolder exs p = true → isInExcludedFolder exs2 p = true := by
      intro exs exs2 hpm hone
      rw [isInExcludedFolder, List.any_eq_true] at hone ⊢
      obtain ⟨e, he, hse⟩ := hone
      exact ⟨e, hpm.mem_iff.mp he, hse⟩
    cases h2 : isInExcludedFolder excluded2 p with
    | true => exact hiff excluded2 excluded hperm.symm h2
    | false =>
      cases h1 : isInExcludedFolder excluded p with
      | true => rw [hiff excluded excluded2 hperm h1] at h2; cases h2
      | false => rfl
  · rcases organizeLoop_moved_provenance F excluded rules v.files ⟨v, 0, [], []⟩ r hr with
      h0 | ⟨g, _, hex, hop, _⟩
    · exact absurd h0 (List.not_mem_nil r)
    · rw [hop]
      exact hex

/-- Witness for C5: exclusion list containing Templates, the path of Scenario
C, and the Scenario A run whose single move starts from a non-excluded
path. -/
theorem exclusion_absoluteness_witness :
    (isInExcludedFolder ["Templates"] ("Templates/sub/todo.md") = true ↔
      ∃ e ∈ ["Templates"],
        strStartsWith ("Templates/sub/todo.md") (e ++ ("/")) = true ∨
        strStartsWith ("Templates/sub/todo.md") (e ++ ("\\")) = true) ∧
    isInExcludedFolder ["Templates"] ("Templates/sub/todo.md")
      = isInExcludedFolder ["Templates"] ("Templates/sub/todo.md") ∧
    isInExcludedFolder ["Templates"]
      (MoveRecord.oldPath ⟨"notes/note.md", "Archive/note.md", "Archive"⟩) = false :=
  exclusion_absoluteness ["Templates"] ["Templates"] ("Templates/sub/todo.md")
    (fun _ _ => false) [⟨"#archive", "Archive", "", ""⟩]
    ⟨[⟨"notes", "note", "md", [], ["#archive"], false⟩], ["notes"]⟩
    ⟨"notes/note.md", "Archive/note.md", "Archive"⟩
    (List.Perm.refl _) (by decide)

/-- Claim C8: per-file failure containment.  In every run the tally equals the
number of logged moves, every logged move is one the rename oracle let
succeed, and if every rename throws the run still completes with a zero tally
and an empty move log: no failure aborts the loop or is counted. -/
theorem per_file_failure_containment (F : String → String → Bool)
    (excluded : List String) (rules : List OrganizeRule) (v : Vault) :
    (organizeFiles F excluded rules v).totalMoved
        = (organizeFiles F excluded rules v).movedFiles.length ∧
    (∀ r ∈ (organizeFiles F excluded rules v).movedFiles,
      F r.oldPath r.newPath = false) ∧
    ((∀ p q, F p q = true) → (organizeFiles F excluded rules v).totalMoved = 0 ∧
      (organizeFiles F excluded rules v).movedFiles = []) := by
  obtain ⟨l, h1, h2⟩ := organizeLoop_moved_append F excluded rules v.files ⟨v, 0, [], []⟩
  have hmf : (organizeFiles F excluded rules v).movedFiles = l := by simpa using h1
  have htm : (organizeFiles F excluded rules v).totalMoved = l.length := by simpa using h2
  have hsafe : ∀ r ∈ (organizeFiles F excluded rules v).movedFiles,
      F r.oldPath r.newPath = false := by
    intro r hr
    rcases organizeLoop_moved_provenance F excluded rules v.files ⟨v, 0, [], []⟩ r hr with
      h0 | ⟨g, _, _, hop, hF, _⟩
    · exact absurd h0 (List.not_mem_nil r)
    · rw [hop]
      exact hF
  refine ⟨by rw [hmf, htm], hsafe, ?_⟩
  intro hall
  have hnil : (organizeFiles F excluded rules v).movedFiles = [] := by
    cases hq : (organizeFiles F excluded rules v).movedFiles with
    | nil => rfl
    | cons a t =>
      have hfa := hsafe a (by rw [hq]; exact List.mem_cons_self a t)
      rw [hall a.oldPath a.newPath] at hfa
      cases hfa
  rw [hmf] at hnil
  subst hnil
  exact ⟨by rw [htm]; rfl, by rw [hmf]⟩

/-- Witness for C8: a run in which the only candidate rename throws still
completes with a zero tally. -/
theorem per_file_failure_containment_witness :
    (organizeFiles (fun _ _ => true) [] [⟨"#archive", "Archive", "", ""⟩]
      ⟨[⟨"notes", "note", "md", [], ["#archive"], false⟩], ["notes"]⟩).totalMoved = 0 :=
  ((per_file_failure_containment (fun _ _ => true) [] [⟨"#archive", "Archive", "", ""⟩]
    ⟨[⟨"notes", "note", "md", [], ["#archive"], false⟩], ["notes"]⟩).2.2
      (fun _ _ => rfl)).1

/-- Claim C1 (amended): a second run immediately after a first one, with no
intervening vault changes, never moves a file that the first run moved — every
such file now sits in the folder of its matched rule and breaks out of the
rule loop at the already-in-target-folder check.  A nonzero second-run tally
can only come from files the first run skipped. -/
theorem second_run_never_removes (F G : String → String → Bool)
    (excluded : List String) (rules : List OrganizeRule) (v : Vault)
    (hnd : (v.files.map VFile.path).Nodup) (r1 r2 : MoveRecord)
    (h1 : r1 ∈ (organizeFiles F excluded rules v).movedFiles)
    (h2 : r2 ∈ (organizeFiles G excluded rules
        (organizeFiles F excluded rules v).vault).movedFiles) :
    r2.oldPath ≠ r1.newPath := by
  have hgood : GoodState rules (organizeFiles F excluded rules v) [] :=
    organizeLoop_good F excluded rules v.files ⟨v, 0, [], []⟩
      ⟨hnd, fun g hg => hg, hnd, by simp, by simp⟩
  obtain ⟨g1, hg1m, hg1p, hg1w⟩ := hgood.movedWitness r1 h1
  rcases organizeLoop_moved_provenance G excluded rules
      (organizeFiles F excluded rules v).vault.files
      ⟨(organizeFiles F excluded rules v).vault, 0, [], []⟩ r2 h2 with
    h0 | ⟨g2, hg2m, _, hop, _, ru2, hru2, _⟩
  · exact absurd h0 (List.not_mem_nil r2)
  · intro heq
    have hpe : VFile.path g2 = VFile.path g1 := by rw [← hop, heq, hg1p]
    have hge : g2 = g1 :=
      List.inj_on_of_nodup_map hgood.livePathsNodup hg2m hg1m hpe
    rw [hge, hg1w] at hru2
    cases hru2

/-- Counterexample for C1 as stated: a file skipped for a destination
collision in the first run moves in the second run once the blocking file has
been moved away, so the second run reports one move, not zero. -/
theorem second_run_moves_again_cex :
    (organizeFiles (fun _ _ => false) [] [⟨"#move", "Y", "", ""⟩, ⟨"", "X", "", "a"⟩]
      ⟨[⟨"src", "a", "md", [], [], false⟩, ⟨"X", "a", "md", [], ["#move"], false⟩],
        ["src", "X"]⟩).totalMoved = 1 ∧
    (organizeFiles (fun _ _ => false) [] [⟨"#move", "Y", "", ""⟩, ⟨"", "X", "", "a"⟩]
      (organizeFiles (fun _ _ => false) [] [⟨"#move", "Y", "", ""⟩, ⟨"", "X", "", "a"⟩]
        ⟨[⟨"src", "a", "md", [], [], false⟩, ⟨"X", "a", "md", [], ["#move"], false⟩],
          ["src", "X"]⟩).vault).totalMoved = 1 := by
  exact ⟨by decide, by decide⟩

/-- Witness for C1 (amended), on the counterexample vault: the second-run move
starts from the path of the first-run collision victim, not from the file the
first run moved. -/
theorem second_run_never_removes_witness :
    MoveRecord.oldPath ⟨"src/a.md", "X/a.md", "X"⟩
      ≠ MoveRecord.newPath ⟨"X/a.md", "Y/a.md", "Y"⟩ :=
  second_run_never_removes (fun _ _ => false) (fun _ _ => false) []
    [⟨"#move", "Y", "", ""⟩, ⟨"", "X", "", "a"⟩]
    ⟨[⟨"src", "a", "md", [], [], false⟩, ⟨"X", "a", "md", [], ["#move"], false⟩],
      ["src", "X"]⟩
    (by decide) ⟨"X/a.md", "Y/a.md", "Y"⟩ ⟨"src/a.md", "X/a.md", "X"⟩
    (by decide) (by decide)

/-- Claim C3 (amended): collision safety.  In every run the destinations of
the executed moves are pairwise distinct — so of two files mapping to the same
destination at most one is moved — the live file paths stay pairwise distinct
and the file count is preserved: a move is never executed onto an occupied
path and no file is ever silently overwritten or lost.  It is not guaranteed
that exactly one of the two colliding files moves: when the destination is
already occupied both are skipped, each with a recorded conflict. -/
theorem collision_safety (F : String → String → Bool) (excluded : List String)
    (rules : List OrganizeRule) (v : Vault)
    (hnd : (v.files.map VFile.path).Nodup) :
    ((organizeFiles F excluded rules v).movedFiles.map MoveRecord.newPath).Nodup ∧
    (((organizeFiles F excluded rules v).vault.files.map VFile.path).Nodup) ∧
    (organizeFiles F excluded rules v).vault.files.length = v.files.length := by
  have hgood : GoodState rules (organizeFiles F excluded rules v) [] :=
    organizeLoop_good F excluded rules v.files ⟨v, 0, [], []⟩
      ⟨hnd, fun g hg => hg, hnd, by simp, by simp⟩
  exact ⟨hgood.movedDestNodup, hgood.livePathsNodup,
    organizeLoop_files_length F excluded rules v.files ⟨v, 0, [], []⟩⟩

/-- Counterexample for C3 as stated: two files both map to the destination
X slash a.md under their matching rule, but a third file already occupies that
path, so neither of the two is moved — not exactly one, and in particular not
the first processed one; both are skipped with recorded conflicts. -/
theorem collision_safety_cex :
    wouldAttempt ⟨"src", "a", "md", [], [], false⟩ [⟨"", "X", "", "a"⟩]
      = some ⟨"", "X", "", "a"⟩ ∧
    wouldAttempt ⟨"other", "a", "md", [], [], false⟩ [⟨"", "X", "", "a"⟩]
      = some ⟨"", "X", "", "a"⟩ ∧
    destPath ⟨"", "X", "", "a"⟩ ⟨"src", "a", "md", [], [], false⟩
      = destPath ⟨"", "X", "", "a"⟩ ⟨"other", "a", "md", [], [], false⟩ ∧
    (organizeFiles (fun _ _ => false) [] [⟨"", "X", "", "a"⟩]
      ⟨[⟨"src", "a", "md", [], [], false⟩, ⟨"X", "a", "md", [], [], false⟩,
          ⟨"other", "a", "md", [], [], false⟩], ["src", "X", "other"]⟩).movedFiles
      = [] ∧
    (organizeFiles (fun _ _ => false) [] [⟨"", "X", "", "a"⟩]
      ⟨[⟨"src", "a", "md", [], [], false⟩, ⟨"X", "a", "md", [], [], false⟩,
          ⟨"other", "a", "md", [], [], false⟩], ["src", "X", "other"]⟩).skippedCollisions
      = [⟨"src/a.md", "X/a.md", "X"⟩, ⟨"other/a.md", "X/a.md", "X"⟩] := by
  refine ⟨by decide, by decide, by decide, by decide, by decide⟩

/-- Witness for C3 (amended), on the counterexample vault: distinct executed
destinations, distinct final paths, and three files before and after. -/
theorem collision_safety_witness :
    ((organizeFiles (fun _ _ => false) [] [⟨"", "X", "", "a"⟩]
      ⟨[⟨"src", "a", "md", [], [], false⟩, ⟨"X", "a", "md", [], [], false⟩,
          ⟨"other", "a", "md", [], [], false⟩],
        ["src", "X", "other"]⟩).movedFiles.map MoveRecord.newPath).Nodup ∧
    (((organizeFiles (fun _ _ => false) [] [⟨"", "X", "", "a"⟩]
      ⟨[⟨"src", "a", "md", [], [], false⟩, ⟨"X", "a", "md", [], [], false⟩,
          ⟨"other", "a", "md", [], [], false⟩],
        ["src", "X", "other"]⟩).vault.files.map VFile.path).Nodup) ∧
    (organizeFiles (fun _ _ => false) [] [⟨"", "X", "", "a"⟩]
      ⟨[⟨"src", "a", "md", [], [], false⟩, ⟨"X", "a", "md", [], [], false⟩,
          ⟨"other", "a", "md", [], [], false⟩],
        ["src", "X", "other"]⟩).vault.files.length
      = (⟨[⟨"src", "a", "md", [], [], false⟩, ⟨"X", "a", "md", [], [], false⟩,
          ⟨"other", "a", "md", [], [], false⟩],
        ["src", "X", "other"]⟩ : Vault).files.length :=
  collision_safety (fun _ _ => false) [] [⟨"", "X", "", "a"⟩]
    ⟨[⟨"src", "a", "md", [], [], false⟩, ⟨"X", "a", "md", [], [], false⟩,
        ⟨"other", "a", "md", [], [], false⟩], ["src", "X", "other"]⟩
    (by decide)

/-- Claim C6 (amended): the rule and destination a file would attempt are
evaluated independently of the run state, hence independently of the position
of the file in the listing, and permuting the file listing permutes the
per-file planned attempts identically.  Which attempts turn into executed
moves, however, is resolved in processing order and can differ between
orderings (see the counterexample). -/
theorem plan_order_independence (F : String → String → Bool) (f : VFile)
    (st st2 : RunState) (excluded : List String) (rules : List OrganizeRule)
    (l l2 : List VFile) (hperm : l.Perm l2) :
    (processRules F f st rules).2.attempted = (processRules F f st2 rules).2.attempted ∧
    (processRules F f st rules).2.attempted
      = (wouldAttempt f rules).map (fun ru => (ru, destPath ru f)) ∧
    (l.map (plannedAttempt excluded rules)).Perm
      (l2.map (plannedAttempt excluded rules)) := by
  refine ⟨?_, processRules_attempted F f st rules, hperm.map _⟩
  rw [processRules_attempted, processRules_attempted]

/-- Counterexample for C6 as stated: permuting the file listing changes the
set of executed moves — in one order the collision victim stays put and one
file moves, in the other the blocking file moves first and both move. -/
theorem file_order_dependence_cex :
    (organizeFiles (fun _ _ => false) [] [⟨"#move", "Y", "", ""⟩, ⟨"", "X", "", "a"⟩]
      ⟨[⟨"src", "a", "md", [], [], false⟩, ⟨"X", "a", "md", [], ["#move"], false⟩],
        ["src", "X"]⟩).movedFiles
      = [⟨"X/a.md", "Y/a.md", "Y"⟩] ∧
    (organizeFiles (fun _ _ => false) [] [⟨"#move", "Y", "", ""⟩, ⟨"", "X", "", "a"⟩]
      ⟨[⟨"X", "a", "md", [], ["#move"], false⟩, ⟨"src", "a", "md", [], [], false⟩],
        ["src", "X"]⟩).movedFiles
      = [⟨"X/a.md", "Y/a.md", "Y"⟩, ⟨"src/a.md", "X/a.md", "X"⟩] := by
  exact ⟨by decide, by decide⟩

/-- Witness for C6 (amended): state-independence and permutation-invariance of
the planned attempts on the counterexample snapshot. -/
theorem plan_order_independence_witness :
    (processRules (fun _ _ => false) ⟨"src", "a", "md", [], [], false⟩
        ⟨⟨[], []⟩, 0, [], []⟩
        [⟨"#move", "Y", "", ""⟩, ⟨"", "X", "", "a"⟩]).2.attempted
      = (processRules (fun _ _ => false) ⟨"src", "a", "md", [], [], false⟩
        ⟨⟨[⟨"X", "a", "md", [], ["#move"], false⟩], ["X"]⟩, 3, [], []⟩
        [⟨"#move", "Y", "", ""⟩, ⟨"", "X", "", "a"⟩]).2.attempted ∧
    (processRules (fun _ _ => false) ⟨"src", "a", "md", [], [], false⟩
        ⟨⟨[], []⟩, 0, [], []⟩
        [⟨"#move", "Y", "", ""⟩, ⟨"", "X", "", "a"⟩]).2.attempted
      = (wouldAttempt ⟨"src", "a", "md", [], [], false⟩
          [⟨"#move", "Y", "", ""⟩, ⟨"", "X", "", "a"⟩]).map
            (fun ru => (ru, destPath ru ⟨"src", "a", "md", [], [], false⟩)) ∧
    ([⟨"src", "a", "md", [], [], false⟩, ⟨"X", "a", "md", [], ["#move"], false⟩].map
        (plannedAttempt [] [⟨"#move", "Y", "", ""⟩, ⟨"", "X", "", "a"⟩])).Perm
      ([⟨"X", "a", "md", [], ["#move"], false⟩, ⟨"src", "a", "md", [], [], false⟩].map
        (plannedAttempt [] [⟨"#move", "Y", "", ""⟩, ⟨"", "X", "", "a"⟩])) :=
  plan_order_independence (fun _ _ => false) ⟨"src", "a", "md", [], [], false⟩
    ⟨⟨[], []⟩, 0, [], []⟩
    ⟨⟨[⟨"X", "a", "md", [], ["#move"], false⟩], ["X"]⟩, 3, [], []⟩
    [] [⟨"#move", "Y", "", ""⟩, ⟨"", "X", "", "a"⟩]
    [⟨"src", "a", "md", [], [], false⟩, ⟨"X", "a", "md", [], ["#move"], false⟩]
    [⟨"X", "a", "md", [], ["#move"], false⟩, ⟨"src", "a", "md", [], [], false⟩]
    (List.Perm.swap _ _ _)

/-- Claim C7: the source never validates the destination folder of a rule.  At
the failing input — a rule with fileType png and empty folder, one matching
png file — the run does not skip the rule: it computes the destination
slash img.png, executes the move and counts it, flatly contradicting the
required ConfigurationError handling. -/
theorem empty_folder_rule_moves :
    (organizeFiles (fun _ _ => false) [] [⟨"", "", "png", ""⟩]
      ⟨[⟨"src", "img", "png", [], [], false⟩], ["src"]⟩).movedFiles
      = [⟨"src/img.png", "/img.png", ""⟩] ∧
    (organizeFiles (fun _ _ => false) [] [⟨"", "", "png", ""⟩]
      ⟨[⟨"src", "img", "png", [], [], false⟩], ["src"]⟩).totalMoved = 1 := by
  exact ⟨by decide, by decide⟩

/-- Claim C10: exclusions constrain only source paths, never destinations.
For a single-file vault whose file is not excluded, attempts a rule, finds the
destination free and the rename succeeding, the move is executed even when the
destination path itself lies under an excluded folder: the computed
destination is never tested against the exclusion list. -/
theorem exclusions_ignore_destinations (F : String → String → Bool)
    (excluded : List String) (rules : List OrganizeRule) (f : VFile)
    (fol : List String) (ru : OrganizeRule)
    (hex : isInExcludedFolder excluded (VFile.path f) = false)
    (hatt : wouldAttempt f rules = some ru)
    (hfree : ((⟨[f], fol⟩ : Vault).ensureFolder ru.folder).pathExists
      (destPath ru f) = false)
    (hF : F (VFile.path f) (destPath ru f) = false)
    (_hdest : isInExcludedFolder excluded (destPath ru f) = true) :
    (organizeFiles F excluded rules ⟨[f], fol⟩).movedFiles
      = [⟨VFile.path f, destPath ru f, ru.folder⟩] := by
  show (organizeLoop F excluded rules [f] ⟨⟨[f], fol⟩, 0, [], []⟩).movedFiles = _
  simp only [organizeLoop, hex, Bool.false_eq_true, if_false]
  rw [processRules_of_moved F f ⟨⟨[f], fol⟩, 0, [], []⟩ rules ru hatt hfree hF]
  rfl

/-- Witness for C10: a png in the inbox moves into Templates slash auto,
a folder under the excluded Templates tree. -/
theorem exclusions_ignore_destinations_witness :
    (organizeFiles (fun _ _ => false) ["Templates"]
      [⟨"", "Templates/auto", "png", ""⟩]
      ⟨[⟨"inbox", "shot", "png", [], [], false⟩], ["inbox"]⟩).movedFiles
      = [⟨VFile.path ⟨"inbox", "shot", "png", [], [], false⟩,
          destPath ⟨"", "Templates/auto", "png", ""⟩
            ⟨"inbox", "shot", "png", [], [], false⟩,
          "Templates/auto"⟩] :=
  exclusions_ignore_destinations (fun _ _ => false) ["Templates"]
    [⟨"", "Templates/auto", "png", ""⟩] ⟨"inbox", "shot", "png", [], [], false⟩
    ["inbox"] ⟨"", "Templates/auto", "png", ""⟩
    (by decide) (by decide) (by decide) rfl (by decide)
